import Mathlib

/-!
Verification of the CSV-parsing / row-pipeline core of the `somcsrpreview`
single-page application (`src/csr-preview/src/App.jsx`).

The JavaScript functions are shallowly embedded as executable Lean
definitions over `List Char` / `String` (a Lean `String` is a structure
holding a `List Char`, so character-level reasoning is exact).  JavaScript
numbers are idealised as exact rationals (`ℚ`); the `value` column of the
source sheets holds small scores, far from any float-precision or overflow
boundary.
-/

namespace CsrPreview

/-- Embedding of `parseCSV`'s character loop (App.jsx lines 17-63).
Arguments mirror the JS locals: the remaining input, the accumulated
`rows`, the current row `cur`, the current field buffer `val`, and the
`inQuotes` flag.  The JS loop checks, in order: a quote (with one
character of lookahead for an escaped doubled quote), then a comma
outside quotes, then a line terminator outside quotes (`\r` followed by
`\n` consumes both), and otherwise appends the character to the field
buffer; at end of input a pending field or non-empty pending row is
flushed as a final row. -/
def parseRec : List Char → List (List String) → List String → List Char → Bool → List (List String)
  | [], rows, cur, val, _ =>
      if val = [] ∧ cur = [] then rows else rows ++ [cur ++ [String.mk val]]
  | '"' :: '"' :: rest, rows, cur, val, true => parseRec rest rows cur (val ++ ['"']) true
  | '"' :: rest, rows, cur, val, inQ => parseRec rest rows cur val (!inQ)
  | ',' :: rest, rows, cur, val, false => parseRec rest rows (cur ++ [String.mk val]) [] false
  | '\r' :: '\n' :: rest, rows, cur, val, false =>
      parseRec rest (rows ++ [cur ++ [String.mk val]]) [] [] false
  | '\n' :: rest, rows, cur, val, false =>
      parseRec rest (rows ++ [cur ++ [String.mk val]]) [] [] false
  | '\r' :: rest, rows, cur, val, false =>
      parseRec rest (rows ++ [cur ++ [String.mk val]]) [] [] false
  | c :: rest, rows, cur, val, inQ => parseRec rest rows cur (val ++ [c]) inQ

/-- Embedding of `parseCSV` (App.jsx lines 17-63). -/
def parseCSV (text : String) : List (List String) :=
  parseRec text.data [] [] [] false

section ParseRecLemmas

theorem parseRec_nil (rows : List (List String)) (cur : List String) (val : List Char) (b : Bool) :
    parseRec [] rows cur val b =
      if val = [] ∧ cur = [] then rows else rows ++ [cur ++ [String.mk val]] := rfl

theorem parseRec_quote_open (rest : List Char) (rows : List (List String)) (cur : List String)
    (val : List Char) :
    parseRec ('"' :: rest) rows cur val false = parseRec rest rows cur val true :=
  parseRec.eq_3 rows cur val false rest (fun _ _ h => by cases h)

theorem parseRec_quote_esc (rest : List Char) (rows : List (List String)) (cur : List String)
    (val : List Char) :
    parseRec ('"' :: '"' :: rest) rows cur val true =
      parseRec rest rows cur (val ++ ['"']) true := rfl

theorem parseRec_quote_close (c : Char) (rest : List Char) (rows : List (List String))
    (cur : List String) (val : List Char) (h : c ≠ '"') :
    parseRec ('"' :: c :: rest) rows cur val true = parseRec (c :: rest) rows cur val false :=
  parseRec.eq_3 rows cur val true (c :: rest)
    (fun _ heq _ => by injection heq with h1 _; exact h h1)

theorem parseRec_quote_close_nil (rows : List (List String)) (cur : List String)
    (val : List Char) :
    parseRec ['"'] rows cur val true = parseRec [] rows cur val false := rfl

theorem parseRec_comma (rest : List Char) (rows : List (List String)) (cur : List String)
    (val : List Char) :
    parseRec (',' :: rest) rows cur val false =
      parseRec rest rows (cur ++ [String.mk val]) [] false := rfl

theorem parseRec_newline (rest : List Char) (rows : List (List String)) (cur : List String)
    (val : List Char) :
    parseRec ('\n' :: rest) rows cur val false =
      parseRec rest (rows ++ [cur ++ [String.mk val]]) [] [] false := rfl

theorem parseRec_crlf (t : List Char) (rows : List (List String)) (cur : List String)
    (val : List Char) :
    parseRec ('\r' :: '\n' :: t) rows cur val false = parseRec ('\n' :: t) rows cur val false := rfl

theorem parseRec_inq_other (c : Char) (rest : List Char) (rows : List (List String))
    (cur : List String) (val : List Char) (h : c ≠ '"') :
    parseRec (c :: rest) rows cur val true = parseRec rest rows cur (val ++ [c]) true :=
  parseRec.eq_8 rows cur val true c rest
    (fun hc => h hc)
    (fun _ hc _ _ => h hc)
    (fun _ hb => by cases hb)
    (fun _ _ _ hb => by cases hb)
    (fun _ hb => by cases hb)
    (fun _ hb => by cases hb)

theorem parseRec_plain (c : Char) (rest : List Char) (rows : List (List String))
    (cur : List String) (val : List Char) (h1 : c ≠ '"') (h2 : c ≠ ',') (h3 : c ≠ '\n')
    (h4 : c ≠ '\r') :
    parseRec (c :: rest) rows cur val false = parseRec rest rows cur (val ++ [c]) false :=
  parseRec.eq_8 rows cur val false c rest
    (fun hc => h1 hc)
    (fun _ hc _ _ => h1 hc)
    (fun hc _ => h2 hc)
    (fun _ hc _ _ => h4 hc)
    (fun hc _ => h3 hc)
    (fun hc _ => h4 hc)

/-- Characters with no structural meaning outside quotes. -/
def plainChar (c : Char) : Prop := c ≠ '"' ∧ c ≠ ',' ∧ c ≠ '\n' ∧ c ≠ '\r'

instance (c : Char) : Decidable (plainChar c) := by unfold plainChar; infer_instance

theorem parseRec_append_plain (l : List Char) (h : ∀ c ∈ l, plainChar c) :
    ∀ (t : List Char) (rows : List (List String)) (cur : List String) (val : List Char),
      parseRec (l ++ t) rows cur val false = parseRec t rows cur (val ++ l) false := by
  induction l with
  | nil => intro t rows cur val; simp
  | cons c l ih =>
    intro t rows cur val
    obtain ⟨h1, h2, h3, h4⟩ := h c (List.mem_cons_self c l)
    rw [List.cons_append, parseRec_plain c (l ++ t) rows cur val h1 h2 h3 h4,
      ih (fun d hd => h d (List.mem_cons_of_mem c hd)) t rows cur (val ++ [c])]
    simp

theorem parseRec_append_inq (l : List Char) (h : ∀ c ∈ l, c ≠ '"') :
    ∀ (t : List Char) (rows : List (List String)) (cur : List String) (val : List Char),
      parseRec (l ++ t) rows cur val true = parseRec t rows cur (val ++ l) true := by
  induction l with
  | nil => intro t rows cur val; simp
  | cons c l ih =>
    intro t rows cur val
    rw [List.cons_append, parseRec_inq_other c (l ++ t) rows cur val (h c (List.mem_cons_self c l)),
      ih (fun d hd => h d (List.mem_cons_of_mem c hd)) t rows cur (val ++ [c])]
    simp

end ParseRecLemmas

/-- Embedding of JavaScript `String.prototype.trim`: strip leading and
trailing whitespace (`App.jsx` uses it in `sanitizeRow` and the row
projections). -/
def jsTrim (s : String) : String :=
  String.mk (((s.data.dropWhile Char.isWhitespace).reverse.dropWhile Char.isWhitespace).reverse)

/-- Embedding of JavaScript `String.prototype.toLowerCase` (ASCII case
folding suffices for the sheet data). -/
def jsToLower (s : String) : String :=
  String.mk (s.data.map Char.toLower)

/-- Embedding of JavaScript `String.prototype.includes`: substring test. -/
def jsIncludes (s q : String) : Bool :=
  decide (q.data <:+: s.data)

/-- Embedding of `sanitizeRow` (App.jsx lines 65-67): every cell is trimmed
and a missing (nullish) cell becomes the empty string via `cell ?? ""`. -/
def sanitizeRow (row : List (Option String)) : List String :=
  row.map (fun cell => jsTrim (cell.getD ""))

/-- Embedding of the regex replace `value.replace(/[^0-9.-]/g, "")` in
`parseCsr`: keep only digits, `.` and `-`. -/
def cleanVal (s : String) : String :=
  String.mk (s.data.filter (fun c => c.isDigit || c = '.' || c = '-'))

/-- Value of a digit string, most significant first. -/
def digitsVal (l : List Char) : ℕ :=
  l.foldl (fun n c => 10 * n + (c.toNat - 48)) 0

/-- Embedding of JavaScript `Number(...)` restricted to the alphabet that
survives `cleanVal` (digits, `.`, `-`): an optional leading minus followed
by decimal digits with at most one dot and at least one digit; anything
else is NaN, modelled as `none`.  JavaScript floats are idealised as exact
rationals. -/
def jsNumber (s : String) : Option ℚ :=
  match s.data with
  | [] => some 0
  | cs =>
    let neg : Bool := cs.head? = some '-'
    let body := if cs.head? = some '-' then cs.tail else cs
    if body.any (fun c => c = '-') then none
    else
      let ip := body.takeWhile Char.isDigit
      let rest := body.dropWhile Char.isDigit
      let mag : Option ℚ :=
        match rest with
        | [] => if ip = [] then none else some (digitsVal ip)
        | '.' :: frac =>
          if frac.all Char.isDigit ∧ (ip ≠ [] ∨ frac ≠ []) then
            some ((digitsVal ip : ℚ) + (digitsVal frac : ℚ) / (10 : ℚ) ^ frac.length)
          else none
        | _ => none
      match mag with
      | none => none
      | some m => some (if neg then -m else m)

/-- Embedding of `parseCsr` (App.jsx lines 101-111): empty input and an
empty cleaned string give `null`; otherwise the cleaned string is fed to
`Number`, with non-finite results (NaN) giving `null`. -/
def parseCsr (value : String) : Option ℚ :=
  if value = "" then none
  else
    let cleaned := cleanVal value
    if cleaned = "" then none
    else jsNumber cleaned

/-- Result record of `csrTier`. -/
structure Tier where
  label : String
  className : String
deriving DecidableEq

/-- Embedding of `csrTier` (App.jsx lines 113-127). -/
def csrTier : Option ℚ → Tier
  | none => ⟨"No score", "empty"⟩
  | some v =>
    if 75 ≤ v then ⟨"High", "gold"⟩
    else if 50 ≤ v then ⟨"Medium", "green"⟩
    else if 25 ≤ v then ⟨"Low", "stone"⟩
    else ⟨"Very low", "ash"⟩

/-- A normalized visible row, as built in `loadSheet` (App.jsx lines
298-314): the sanitized cells, the 1-based physical row number, the three
projected fields and the parsed numeric score. -/
structure VRow where
  cells : List String
  rowNumber : ℕ
  item : String
  name : String
  value : String
  csrNumber : Option ℚ
deriving DecidableEq

/-- The row constructor from `loadSheet`'s `.map((cells, rowIndex) => ...)`
(App.jsx lines 300-312), with `COL_INDEX = { item: 10, name: 11, value: 12 }`. -/
def mkVRow (cells : List String) (rowNumber : ℕ) : VRow :=
  { cells := cells
    rowNumber := rowNumber
    item := jsTrim (cells.getD 10 "")
    name := jsTrim (cells.getD 11 "")
    value := jsTrim (cells.getD 12 "")
    csrNumber := parseCsr (jsTrim (cells.getD 12 "")) }

/-- The indexed map over the sanitized rows from `loadSheet`. -/
def buildRowsAux : ℕ → List (List String) → List VRow
  | _, [] => []
  | i, r :: rest => mkVRow (sanitizeRow (r.map some)) (i + 1) :: buildRowsAux (i + 1) rest

/-- Embedding of the row pipeline of `loadSheet` (App.jsx lines 298-314):
`parseCSV(text).map(sanitizeRow)`, then the indexed row construction, then
`.filter((row) => row.rowNumber > 1)` and
`.filter((row) => row.item || row.name || row.value)`. -/
def buildRows (rawRows : List (List String)) : List VRow :=
  ((buildRowsAux 0 rawRows).filter (fun row => decide (1 < row.rowNumber))).filter
    (fun row => decide (row.item ≠ "" ∨ row.name ≠ "" ∨ row.value ≠ ""))

/-- The filter state (`DEFAULT_FILTERS = { query: "" }`). -/
structure Filters where
  query : String

/-- Embedding of `applyFilters` (App.jsx lines 129-139). -/
def applyFilters (rows : List VRow) (filters : Filters) : List VRow :=
  let query := jsToLower (jsTrim filters.query)
  if query = "" then rows
  else
    rows.filter (fun row =>
      jsIncludes (jsToLower row.item) query || jsIncludes (jsToLower row.name) query)

/-- Sort keys of the table (`"csr"`, `"item"`, `"name"` in the source). -/
inductive SortKey
  | csr
  | item
  | name
deriving DecidableEq

/-- Sort directions (`"asc"` / `"desc"`). -/
inductive SortDir
  | asc
  | desc
deriving DecidableEq

/-- A sort specification, as held in the `sort` state. -/
structure SortSpec where
  key : SortKey
  dir : SortDir

/-- The numeric sort key of a row: `a.csrNumber ?? -Infinity` (App.jsx
lines 145-146), with `-Infinity` modelled as the bottom element of
`WithBot ℚ`. -/
def csrKey (row : VRow) : WithBot ℚ :=
  match row.csrNumber with
  | none => ⊥
  | some q => (q : WithBot ℚ)

/-- The comparison used by `sortRows` (App.jsx lines 143-157), expressed as
a boolean `le`: the JS comparator returns `left - right` for ascending and
`right - left` for descending on the `csr` key (two absent values subtract
to NaN, which the sort treats as equal, matching `⊥ ≤ ⊥`), and
`localeCompare` on the two text keys, modelled as code-point order. -/
def sortLe (sort : SortSpec) (a b : VRow) : Bool :=
  match sort.key with
  | .csr =>
    match sort.dir with
    | .asc => decide (csrKey a ≤ csrKey b)
    | .desc => decide (csrKey b ≤ csrKey a)
  | .item =>
    match sort.dir with
    | .asc => decide (a.item ≤ b.item)
    | .desc => decide (b.item ≤ a.item)
  | .name =>
    match sort.dir with
    | .asc => decide (a.name ≤ b.name)
    | .desc => decide (b.name ≤ a.name)

/-- Embedding of `sortRows` (App.jsx lines 141-159): `[...rows].sort(cmp)`
copies the input and applies the engine's stable comparison sort, modelled
as a stable merge sort with the comparator's `le` relation. -/
def sortRows (rows : List VRow) (sort : SortSpec) : List VRow :=
  rows.mergeSort (sortLe sort)

/-- Embedding of `fetchCsvWithFallback`'s loop (App.jsx lines 84-99) over
an oracle `f` mapping a URL to either an error message or a body text.
Alongside the JS function's result (`{ text, url }` on the first success,
or the last error when every candidate fails) it returns the list of URLs
actually attempted, in order. -/
def fetchAux (f : String → Except String String) :
    List String → Option String → Except String (String × String) × List String
  | [], lastError => (Except.error (lastError.getD "Fetch failed"), [])
  | url :: rest, _lastError =>
    match f url with
    | Except.ok t => (Except.ok (t, url), [url])
    | Except.error e =>
      let r := fetchAux f rest (some e)
      (r.1, url :: r.2)

/-- Embedding of `fetchCsvWithFallback` (App.jsx lines 84-99), starting
with `lastError = null`. -/
def fetchCsvWithFallback (f : String → Except String String) (urls : List String) :
    Except String (String × String) × List String :=
  fetchAux f urls none

/-- Modelled from the spec: the "normalized text-rendering of the parsed
rows" used by the round-trip property — fields joined by commas.  (The
repository has no renderer; the spec's §8 round-trip property supplies
this construction.) -/
def joinComma : List String → List Char
  | [] => []
  | [f] => f.data
  | f :: g :: rest => f.data ++ ',' :: joinComma (g :: rest)

/-- Modelled from the spec: rows joined by newlines (see `joinComma`). -/
def joinLines : List (List String) → List Char
  | [] => []
  | [r] => joinComma r
  | r :: r2 :: rest => joinComma r ++ '\n' :: joinLines (r2 :: rest)

/-- Modelled from the spec: the full text-rendering of a row list. -/
def renderCSV (rows : List (List String)) : String :=
  String.mk (joinLines rows)

/-! ## Claims about the CSV parser -/

theorem String.mk_data (s : String) : String.mk s.data = s := rfl

/-- C1: `parseCSV` preserves commas and newlines occurring inside a
double-quoted field as literal field content (first conjunct: a single
quoted field containing any non-quote characters, commas and newlines
included, parses to exactly that field) and un-escapes a doubled quote to
a single quote; in particular `parseCSV "a,\"b,c\",d\n"` is the single row
`["a", "b,c", "d"]` and `parseCSV "a,\"b\"\"c\",d"` is the single row
`["a", "b\"c", "d"]`. -/
theorem claim_C1 :
    (∀ f : String, (∀ c ∈ f.data, c ≠ '"') →
        parseCSV (String.mk ('"' :: f.data ++ ['"', '\n'])) = [[f]]) ∧
    parseCSV "a,\"b,c\",d\n" = [["a", "b,c", "d"]] ∧
    parseCSV "a,\"b\"\"c\",d" = [["a", "b\"c", "d"]] := by
  refine ⟨?_, by decide, by decide⟩
  intro f hf
  show parseRec ('"' :: f.data ++ ['"', '\n']) [] [] [] false = [[f]]
  rw [List.cons_append, parseRec_quote_open, parseRec_append_inq f.data hf,
    List.nil_append, parseRec_quote_close '\n' [] [] [] f.data (by decide),
    parseRec_newline, parseRec_nil]
  simp [String.mk_data]

/-- C1 witness: the first conjunct of `claim_C1` at the concrete field
`"b,c\nd"`, whose commas and newline survive as literal field content. -/
theorem claim_C1_witness :
    parseCSV (String.mk ('"' :: ("b,c\nd" : String).data ++ ['"', '\n'])) = [["b,c\nd"]] :=
  claim_C1.1 "b,c\nd" (by decide)

/-- C2: a lone `\n`, a lone `\r`, or a `\r\n` pair outside quotes each
terminate exactly one row (the general first conjunct shows `\r\n` is
consumed as the single terminator `\n` from any parser state outside
quotes); `parseCSV "a,b\r\nc,d"` is exactly `[["a","b"],["c","d"]]`, the
empty input parses to no rows, a final row without trailing terminator is
flushed, and a trailing newline adds no extra empty row. -/
theorem claim_C2 :
    (∀ (t : List Char) (rows : List (List String)) (cur : List String) (val : List Char),
        parseRec ('\r' :: '\n' :: t) rows cur val false = parseRec ('\n' :: t) rows cur val false) ∧
    parseCSV "a,b\r\nc,d" = [["a", "b"], ["c", "d"]] ∧
    parseCSV "a,b\rc,d" = [["a", "b"], ["c", "d"]] ∧
    parseCSV "" = [] ∧
    parseCSV "a,b\r\nc,d\n" = [["a", "b"], ["c", "d"]] :=
  ⟨parseRec_crlf, by decide, by decide, by decide, by decide⟩

/-- C10: `parseCSV "\"\""` (an input that is just one quoted empty field)
returns no rows, because the end-of-input flush only fires when the field
buffer is non-empty or the current row already holds a completed field
(third conjunct); likewise a final record consisting solely of a quoted
empty field is dropped. -/
theorem claim_C10 :
    parseCSV "\"\"" = [] ∧
    parseCSV "a\n\"\"" = [["a"]] ∧
    (∀ (rows : List (List String)) (cur : List String) (val : List Char) (b : Bool),
        parseRec [] rows cur val b =
          if val = [] ∧ cur = [] then rows else rows ++ [cur ++ [String.mk val]]) :=
  ⟨by decide, by decide, parseRec_nil⟩

/-- C8: `parseCSV` is total and degrades gracefully on an unterminated
quote: the whole remainder after the opening quote (quote-free, but
commas and newlines allowed) is appended literally as in-quotes text and a
best-effort row list is returned; and `parseCsr` returns `none` (never an
error) exactly when the value is empty, cleans to the empty string, or
cleans to a string `Number` cannot parse. -/
theorem claim_C8 :
    (∀ f : String, (∀ c ∈ f.data, c ≠ '"') →
        parseCSV (String.mk ('"' :: f.data)) = if f = "" then [] else [[f]]) ∧
    (∀ v : String,
        parseCsr v = none ↔ (v = "" ∨ cleanVal v = "" ∨ jsNumber (cleanVal v) = none)) := by
  constructor
  · intro f hf
    show parseRec ('"' :: f.data) [] [] [] false = if f = "" then [] else [[f]]
    rw [show ('"' :: f.data : List Char) = '"' :: (f.data ++ []) by simp,
      parseRec_quote_open, parseRec_append_inq f.data hf, List.nil_append, parseRec_nil]
    by_cases h : f = ""
    · subst h; simp
    · have hd : f.data ≠ [] := fun hcontra => h (by rw [← String.mk_data f, hcontra])
      simp [hd, String.mk_data, h]
  · intro v
    by_cases h1 : v = ""
    · simp [parseCsr, h1]
    · by_cases h2 : cleanVal v = ""
      · simp [parseCsr, h1, h2]
      · simp [parseCsr, h1, h2]

/-- C8 witness: the unterminated-quote conjunct of `claim_C8` at the
concrete input `"\"x,\ny"` and the `parseCsr` conjunct at `"abc"`. -/
theorem claim_C8_witness :
    parseCSV (String.mk ('"' :: ("x,\ny" : String).data)) =
      (if ("x,\ny" : String) = "" then [] else [["x,\ny"]]) ∧
    (parseCsr "abc" = none ↔
      (("abc" : String) = "" ∨ cleanVal "abc" = "" ∨ jsNumber (cleanVal "abc") = none)) :=
  ⟨claim_C8.1 "x,\ny" (by decide), claim_C8.2 "abc"⟩

/-! ## Round-trip (C9) -/

/-- All fields of a row consist of plain characters only. -/
def rowClean (r : List String) : Prop := ∀ f ∈ r, ∀ c ∈ f.data, plainChar c

instance (r : List String) : Decidable (rowClean r) := by unfold rowClean; infer_instance

theorem parseRec_joinComma_line (r : List String) (h : rowClean r) (hr : r ≠ []) :
    ∀ (t : List Char) (rows : List (List String)) (cur : List String),
      parseRec (joinComma r ++ '\n' :: t) rows cur [] false =
        parseRec t (rows ++ [cur ++ r]) [] [] false := by
  induction r with
  | nil => exact absurd rfl hr
  | cons f rest ih =>
    intro t rows cur
    cases rest with
    | nil =>
      show parseRec (f.data ++ '\n' :: t) rows cur [] false = _
      rw [parseRec_append_plain f.data (h f (List.mem_cons_self f []))          , List.nil_append,
        parseRec_newline, String.mk_data]
    | cons g rest2 =>
      show parseRec ((f.data ++ ',' :: joinComma (g :: rest2)) ++ '\n' :: t) rows cur [] false = _
      rw [List.append_assoc, parseRec_append_plain f.data (h f (List.mem_cons_self f _)),
        List.nil_append, List.cons_append, parseRec_comma, String.mk_data,
        ih (fun a ha => h a (List.mem_cons_of_mem f ha)) (by simp) t rows (cur ++ [f])]
      simp

theorem parseRec_joinComma_last_cons (r : List String) (h : rowClean r) (hr : r ≠ []) :
    ∀ (rows : List (List String)) (cur : List String), cur ≠ [] →
      parseRec (joinComma r) rows cur [] false = rows ++ [cur ++ r] := by
  induction r with
  | nil => exact absurd rfl hr
  | cons f rest ih =>
    intro rows cur hcur
    cases rest with
    | nil =>
      show parseRec f.data rows cur [] false = _
      rw [show f.data = f.data ++ [] by simp,
        parseRec_append_plain f.data (h f (List.mem_cons_self f [])), List.nil_append,
        parseRec_nil]
      simp [hcur, String.mk_data]
    | cons g rest2 =>
      show parseRec (f.data ++ ',' :: joinComma (g :: rest2)) rows cur [] false = _
      rw [parseRec_append_plain f.data (h f (List.mem_cons_self f _)), List.nil_append,
        parseRec_comma, String.mk_data,
        ih (fun a ha => h a (List.mem_cons_of_mem f ha)) (by simp) rows (cur ++ [f]) (by simp)]
      simp

theorem parseRec_joinComma_last (r : List String) (h : rowClean r) (hr : r ≠ [])
    (hr1 : r ≠ [""]) (rows : List (List String)) :
    parseRec (joinComma r) rows [] [] false = rows ++ [r] := by
  cases r with
  | nil => exact absurd rfl hr
  | cons f rest =>
    cases rest with
    | nil =>
      show parseRec f.data rows [] [] false = _
      have hf : f ≠ "" := fun hcontra => hr1 (by rw [hcontra])
      have hd : f.data ≠ [] := fun hcontra => hf (by rw [← String.mk_data f, hcontra])
      rw [show f.data = f.data ++ [] by simp,
        parseRec_append_plain f.data (h f (List.mem_cons_self f [])), List.nil_append,
        parseRec_nil]
      simp [hd, String.mk_data]
    | cons g rest2 =>
      show parseRec (f.data ++ ',' :: joinComma (g :: rest2)) rows [] [] false = _
      rw [parseRec_append_plain f.data (h f (List.mem_cons_self f _)), List.nil_append,
        parseRec_comma, String.mk_data]
      simp only [List.nil_append]
      rw [parseRec_joinComma_last_cons (g :: rest2)
        (fun a ha => h a (List.mem_cons_of_mem f ha)) (by simp) rows [f] (by simp)]
      simp

theorem parseRec_joinLines (rows : List (List String))
    (hne : ∀ r ∈ rows, r ≠ [])
    (hclean : ∀ r ∈ rows, rowClean r)
    (hlast : rows.getLast? ≠ some [""]) :
    ∀ acc : List (List String), parseRec (joinLines rows) acc [] [] false = acc ++ rows := by
  induction rows with
  | nil => intro acc; simp [joinLines, parseRec_nil]
  | cons r rest ih =>
    intro acc
    cases rest with
    | nil =>
      show parseRec (joinComma r) acc [] [] false = _
      rw [parseRec_joinComma_last r (hclean r (List.mem_cons_self r []))
        (hne r (List.mem_cons_self r [])) (fun hcontra => hlast (by rw [hcontra]; rfl)) acc]
    | cons r2 rest2 =>
      show parseRec (joinComma r ++ '\n' :: joinLines (r2 :: rest2)) acc [] [] false = _
      rw [parseRec_joinComma_line r (hclean r (List.mem_cons_self r _))
        (hne r (List.mem_cons_self r _))]
      simp only [List.nil_append]
      rw [ih (fun a ha => hne a (List.mem_cons_of_mem r ha))
        (fun a ha => hclean a (List.mem_cons_of_mem r ha))
        (by rwa [List.getLast?_cons_cons] at hlast) (acc ++ [r])]
      simp

/-- C9 (amended): re-parsing the text-rendering of a row list whose fields
contain no comma, no double quote, and no line-terminator character
recovers the original rows field-for-field, provided every row has at
least one field and the final row is not the single empty field (those
final records render to nothing and are dropped, see the counterexample). -/
theorem claim_C9 (rows : List (List String))
    (hne : ∀ r ∈ rows, r ≠ [])
    (hclean : ∀ r ∈ rows, ∀ f ∈ r, ∀ c ∈ f.data, plainChar c)
    (hlast : rows.getLast? ≠ some [""]) :
    parseCSV (renderCSV rows) = rows := by
  show parseRec (joinLines rows) [] [] [] false = rows
  rw [parseRec_joinLines rows hne hclean hlast []]
  rfl

/-- C9 counterexample: the claim as stated fails at `[[""]]`: its only
field is empty, hence free of commas, quotes and terminators, yet the
rendering is the empty string, which re-parses to no rows at all. -/
theorem claim_C9_counterexample :
    (∀ r ∈ ([[""]] : List (List String)), ∀ f ∈ r, ∀ c ∈ f.data, plainChar c) ∧
    parseCSV (renderCSV [[""]]) ≠ [[""]] ∧
    parseCSV (renderCSV [[""]]) = [] :=
  ⟨by decide, by decide, by decide⟩

/-- C9 witness: the amended round-trip at a concrete two-row list. -/
theorem claim_C9_witness :
    parseCSV (renderCSV [["a", "b"], ["", "c"]]) = [["a", "b"], ["", "c"]] :=
  claim_C9 [["a", "b"], ["", "c"]] (by decide) (by decide) (by decide)

/-! ## Filtering (C3) -/

/-- C3: `applyFilters` returns the rows unchanged when the query trims and
case-folds to the empty string; otherwise it returns the sub-list of
exactly those rows whose lower-cased `item` or `name` field contains the
folded query as a substring. -/
theorem claim_C3 (rows : List VRow) (filters : Filters) :
    (jsToLower (jsTrim filters.query) = "" → applyFilters rows filters = rows) ∧
    (jsToLower (jsTrim filters.query) ≠ "" →
      (applyFilters rows filters).Sublist rows ∧
      ∀ row : VRow, row ∈ applyFilters rows filters ↔
        row ∈ rows ∧
          ((jsToLower (jsTrim filters.query)).data <:+: (jsToLower row.item).data ∨
            (jsToLower (jsTrim filters.query)).data <:+: (jsToLower row.name).data)) := by
  constructor
  · intro h
    simp [applyFilters, h]
  · intro h
    refine ⟨?_, ?_⟩
    · simp only [applyFilters, if_neg h]
      exact List.filter_sublist rows
    · intro row
      simp only [applyFilters, if_neg h, List.mem_filter, Bool.or_eq_true, jsIncludes,
        decide_eq_true_eq]

/-- A concrete visible row used by witnesses. -/
def sampleRow : VRow :=
  { cells := []
    rowNumber := 2
    item := "Sword"
    name := "Bob"
    value := ""
    csrNumber := none }

/-- C3 witness: `claim_C3` at a one-row list, once with a blank query and
once with the query `"SWO"` that matches the row's `item` field
case-insensitively. -/
theorem claim_C3_witness :
    applyFilters [sampleRow] ⟨"  "⟩ = [sampleRow] ∧
    (sampleRow ∈ applyFilters [sampleRow] ⟨"SWO"⟩ ↔
      sampleRow ∈ [sampleRow] ∧
        ((jsToLower (jsTrim "SWO")).data <:+: (jsToLower sampleRow.item).data ∨
          (jsToLower (jsTrim "SWO")).data <:+: (jsToLower sampleRow.name).data)) :=
  ⟨(claim_C3 [sampleRow] ⟨"  "⟩).1 (by decide),
    ((claim_C3 [sampleRow] ⟨"SWO"⟩).2 (by decide)).2 sampleRow⟩

/-! ## Sorting (C4) -/

theorem csrKey_eq_bot (row : VRow) : csrKey row = ⊥ ↔ row.csrNumber = none := by
  cases h : row.csrNumber with
  | none => simp [csrKey, h]
  | some q => simp [csrKey, h]

theorem sortLe_csr_trans (d : SortDir) :
    ∀ a b c : VRow, sortLe ⟨SortKey.csr, d⟩ a b → sortLe ⟨SortKey.csr, d⟩ b c →
      sortLe ⟨SortKey.csr, d⟩ a c := by
  intro a b c hab hbc
  cases d with
  | asc =>
    simp only [sortLe, decide_eq_true_eq] at hab hbc ⊢
    exact le_trans hab hbc
  | desc =>
    simp only [sortLe, decide_eq_true_eq] at hab hbc ⊢
    exact le_trans hbc hab

theorem sortLe_csr_total (d : SortDir) :
    ∀ a b : VRow, sortLe ⟨SortKey.csr, d⟩ a b || sortLe ⟨SortKey.csr, d⟩ b a := by
  intro a b
  cases d with
  | asc =>
    simp only [sortLe, Bool.or_eq_true, decide_eq_true_eq]
    exact le_total _ _
  | desc =>
    simp only [sortLe, Bool.or_eq_true, decide_eq_true_eq]
    exact le_total _ _

/-- C4: sorting on the numeric key treats an absent `csrNumber` as the
non-flipping sentinel `-∞`: the result is a permutation of the input;
descending output is ordered with larger parsed values first, ascending
output with smaller values first; and in consequence every absent-value
row comes after all present-value rows in descending order and before
them in ascending order. -/
theorem claim_C4 (rows : List VRow) :
    (sortRows rows ⟨SortKey.csr, SortDir.desc⟩).Perm rows ∧
    (sortRows rows ⟨SortKey.csr, SortDir.desc⟩).Pairwise (fun a b => csrKey b ≤ csrKey a) ∧
    (sortRows rows ⟨SortKey.csr, SortDir.asc⟩).Pairwise (fun a b => csrKey a ≤ csrKey b) ∧
    (sortRows rows ⟨SortKey.csr, SortDir.desc⟩).Pairwise
      (fun a b => a.csrNumber = none → b.csrNumber = none) ∧
    (sortRows rows ⟨SortKey.csr, SortDir.asc⟩).Pairwise
      (fun a b => b.csrNumber = none → a.csrNumber = none) := by
  have hdesc :
      (sortRows rows ⟨SortKey.csr, SortDir.desc⟩).Pairwise (fun a b => csrKey b ≤ csrKey a) := by
    have h := List.sorted_mergeSort
      (sortLe_csr_trans SortDir.desc) (sortLe_csr_total SortDir.desc) rows
    exact h.imp (fun hab => by
      simpa only [sortLe, decide_eq_true_eq] using hab)
  have hasc :
      (sortRows rows ⟨SortKey.csr, SortDir.asc⟩).Pairwise (fun a b => csrKey a ≤ csrKey b) := by
    have h := List.sorted_mergeSort
      (sortLe_csr_trans SortDir.asc) (sortLe_csr_total SortDir.asc) rows
    exact h.imp (fun hab => by
      simpa only [sortLe, decide_eq_true_eq] using hab)
  refine ⟨List.mergeSort_perm rows _, hdesc, hasc, ?_, ?_⟩
  · exact hdesc.imp (fun {a b} hab ha => by
      rw [← csrKey_eq_bot] at ha ⊢
      rw [ha] at hab
      exact le_bot_iff.mp hab)
  · exact hasc.imp (fun {a b} hab hb => by
      rw [← csrKey_eq_bot] at hb ⊢
      rw [hb] at hab
      exact le_bot_iff.mp hab)

/-! ## Tier classification (C6) -/

/-- C6: `csrTier` is a pure function of the optional score: absent maps to
the "No score" tier, and the bands `≥ 75`, `[50, 75)`, `[25, 50)` and
`< 25` map to "High", "Medium", "Low" and "Very low" respectively, each
lower bound inclusive; in particular at 75, 74.999, 50, 49.999, 25 and
24.999. -/
theorem claim_C6 :
    (csrTier none).label = "No score" ∧
    (∀ v : ℚ, 75 ≤ v → (csrTier (some v)).label = "High") ∧
    (∀ v : ℚ, 50 ≤ v → v < 75 → (csrTier (some v)).label = "Medium") ∧
    (∀ v : ℚ, 25 ≤ v → v < 50 → (csrTier (some v)).label = "Low") ∧
    (∀ v : ℚ, v < 25 → (csrTier (some v)).label = "Very low") ∧
    (csrTier (some 75)).label = "High" ∧
    (csrTier (some (74999 / 1000))).label = "Medium" ∧
    (csrTier (some 50)).label = "Medium" ∧
    (csrTier (some (49999 / 1000))).label = "Low" ∧
    (csrTier (some 25)).label = "Low" ∧
    (csrTier (some (24999 / 1000))).label = "Very low" := by
  refine ⟨rfl, ?_, ?_, ?_, ?_, ?_, ?_, ?_, ?_, ?_, ?_⟩
  · intro v h
    simp only [csrTier, if_pos h]
  · intro v h1 h2
    simp only [csrTier, if_neg (not_le.mpr h2), if_pos h1]
  · intro v h1 h2
    simp only [csrTier, if_neg (not_le.mpr (h2.trans (show (50 : ℚ) < 75 by norm_num))),
      if_neg (not_le.mpr h2), if_pos h1]
  · intro v h
    simp only [csrTier, if_neg (not_le.mpr (h.trans (show (25 : ℚ) < 75 by norm_num))),
      if_neg (not_le.mpr (h.trans (show (25 : ℚ) < 50 by norm_num))), if_neg (not_le.mpr h)]
  · norm_num [csrTier]
  · norm_num [csrTier]
  · norm_num [csrTier]
  · norm_num [csrTier]
  · norm_num [csrTier]
  · norm_num [csrTier]

/-- C6 witness: the four banded conjuncts of `claim_C6` applied at the
concrete scores 80, 60, 30 and 10. -/
theorem claim_C6_witness :
    (csrTier (some 80)).label = "High" ∧
    (csrTier (some 60)).label = "Medium" ∧
    (csrTier (some 30)).label = "Low" ∧
    (csrTier (some 10)).label = "Very low" :=
  ⟨claim_C6.2.1 80 (by norm_num),
    claim_C6.2.2.1 60 (by norm_num) (by norm_num),
    claim_C6.2.2.2.1 30 (by norm_num) (by norm_num),
    claim_C6.2.2.2.2.1 10 (by norm_num)⟩

/-! ## Row normalisation (C5) -/

theorem sanitizeRow_map_some (r : List String) : sanitizeRow (r.map some) = r.map jsTrim := by
  simp [sanitizeRow, List.map_map, Function.comp]

theorem mem_buildRowsAux (row : VRow) :
    ∀ (k : ℕ) (l : List (List String)),
      row ∈ buildRowsAux k l ↔
        ∃ i : ℕ, ∃ hi : i < l.length,
          row = mkVRow (sanitizeRow ((l.get ⟨i, hi⟩).map some)) (k + i + 1) := by
  intro k l
  induction l generalizing k with
  | nil => simp [buildRowsAux]
  | cons r rest ih =>
    simp only [buildRowsAux, List.mem_cons, ih]
    constructor
    · rintro (h | ⟨i, hi, h⟩)
      · exact ⟨0, by simp, by simpa using h⟩
      · refine ⟨i + 1, by simpa using Nat.succ_lt_succ hi, ?_⟩
        have harith : k + (i + 1) + 1 = k + 1 + i + 1 := by omega
        rw [harith]
        exact h
    · rintro ⟨i, hi, h⟩
      cases i with
      | zero => exact Or.inl (by simpa using h)
      | succ j =>
        refine Or.inr ⟨j, Nat.lt_of_succ_lt_succ (by simpa using hi), ?_⟩
        have harith : k + 1 + j + 1 = k + (j + 1) + 1 := by omega
        rw [harith]
        exact h

/-- C5: row normalisation trims every cell and maps missing cells to the
empty string (second conjunct restates `sanitizeRow`), and a row is in
the visible set iff it is built from the trimmed cells of the raw row at
some 0-based index `i` with row number `i + 1`, that physical position is
greater than 1 (the header row 1 is excluded), and at least one of the
projected `item`, `name`, `value` fields is non-empty after trimming. -/
theorem claim_C5 (rawRows : List (List String)) :
    (∀ row : VRow, row ∈ buildRows rawRows ↔
        ∃ i : ℕ, ∃ hi : i < rawRows.length,
          row = mkVRow ((rawRows.get ⟨i, hi⟩).map jsTrim) (i + 1) ∧ 1 < i + 1 ∧
            (row.item ≠ "" ∨ row.name ≠ "" ∨ row.value ≠ "")) ∧
    (∀ cells : List (Option String),
        sanitizeRow cells = cells.map (fun c => jsTrim (c.getD ""))) := by
  refine ⟨?_, fun cells => rfl⟩
  intro row
  simp only [buildRows, List.mem_filter, mem_buildRowsAux, decide_eq_true_eq, Nat.zero_add]
  constructor
  · rintro ⟨⟨⟨i, hi, h⟩, hpos⟩, hfield⟩
    refine ⟨i, hi, ?_, ?_, hfield⟩
    · rw [h, sanitizeRow_map_some]
    · rw [h] at hpos
      simpa [mkVRow] using hpos
  · rintro ⟨i, hi, h, hpos, hfield⟩
    refine ⟨⟨⟨i, hi, by rw [h, sanitizeRow_map_some]⟩, ?_⟩, hfield⟩
    rw [h]
    simpa [mkVRow] using hpos

/-- A concrete parsed sheet with a header row and one data row whose
`item` column (index 10) holds `" x "`. -/
def sampleRaw : List (List String) :=
  [["h"], ["", "", "", "", "", "", "", "", "", "", " x "]]

/-- C5 witness: `claim_C5` at `sampleRaw` shows the trimmed data row at
physical position 2 is visible. -/
theorem claim_C5_witness :
    mkVRow ((["", "", "", "", "", "", "", "", "", "", " x "] : List String).map jsTrim) 2 ∈
      buildRows sampleRaw :=
  ((claim_C5 sampleRaw).1 _).mpr ⟨1, by decide, rfl, by decide, by decide⟩

/-! ## Sheet fetching (C7) -/

theorem fetchAux_success (f : String → Except String String) (u t : String) (post : List String)
    (hu : f u = Except.ok t) :
    ∀ pre : List String, (∀ v ∈ pre, ∃ e, f v = Except.error e) →
      ∀ le : Option String, fetchAux f (pre ++ u :: post) le = (Except.ok (t, u), pre ++ [u]) := by
  intro pre
  induction pre with
  | nil =>
    intro _ le
    show fetchAux f (u :: post) le = _
    simp [fetchAux, hu]
  | cons v pre ih =>
    intro h le
    obtain ⟨e, he⟩ := h v (List.mem_cons_self v pre)
    show fetchAux f (v :: (pre ++ u :: post)) le = _
    simp only [fetchAux, he]
    rw [ih (fun w hw => h w (List.mem_cons_of_mem v hw)) (some e)]
    rfl

theorem fetchAux_allfail (f : String → Except String String) (u e : String)
    (hu : f u = Except.error e) :
    ∀ urls : List String, (∀ v ∈ urls, ∃ e2, f v = Except.error e2) →
      ∀ le : Option String, fetchAux f (urls ++ [u]) le = (Except.error e, urls ++ [u]) := by
  intro urls
  induction urls with
  | nil =>
    intro _ le
    show fetchAux f [u] le = _
    simp [fetchAux, hu]
  | cons v urls ih =>
    intro h le
    obtain ⟨e2, he2⟩ := h v (List.mem_cons_self v urls)
    show fetchAux f (v :: (urls ++ [u])) le = _
    simp only [fetchAux, he2]
    rw [ih (fun w hw => h w (List.mem_cons_of_mem v hw)) (some e2)]
    rfl

/-- C7: the fetcher tries its candidate URLs in order: when every URL of a
prefix fails and the next URL succeeds with body `t`, the result is
`{ text := t, url := that URL }` and exactly the prefix plus that URL were
attempted (nothing after it); when every candidate fails, the surfaced
error is the failure of the last URL attempted. -/
theorem claim_C7 :
    (∀ (f : String → Except String String) (pre : List String) (u : String) (post : List String)
        (t : String),
        (∀ v ∈ pre, ∃ e, f v = Except.error e) → f u = Except.ok t →
          fetchCsvWithFallback f (pre ++ u :: post) = (Except.ok (t, u), pre ++ [u])) ∧
    (∀ (f : String → Except String String) (urls : List String) (u e : String),
        (∀ v ∈ urls, ∃ e2, f v = Except.error e2) → f u = Except.error e →
          fetchCsvWithFallback f (urls ++ [u]) = (Except.error e, urls ++ [u])) :=
  ⟨fun f pre u post t hpre hu => fetchAux_success f u t post hu pre hpre none,
    fun f urls u e hurls hu => fetchAux_allfail f u e hu urls hurls none⟩

/-- A concrete fetch oracle: only the URL `"second"` responds. -/
def sampleFetch : String → Except String String := fun url =>
  if url = "second" then Except.ok "body" else Except.error ("HTTP 404 " ++ url)

/-- C7 witness: `claim_C7` at `sampleFetch` — a failing first URL followed
by a succeeding second one yields the second URL's body and source, and
two failing URLs surface the second (last) failure. -/
theorem claim_C7_witness :
    fetchCsvWithFallback sampleFetch (["first"] ++ "second" :: ["third"]) =
      (Except.ok ("body", "second"), ["first"] ++ ["second"]) ∧
    fetchCsvWithFallback sampleFetch (["first"] ++ ["fourth"]) =
      (Except.error ("HTTP 404 " ++ "fourth"), ["first"] ++ ["fourth"]) :=
  ⟨claim_C7.1 sampleFetch ["first"] "second" ["third"] "body"
      (fun v hv => by rw [List.mem_singleton] at hv; subst hv; exact ⟨"HTTP 404 " ++ "first", rfl⟩)
      rfl,
    claim_C7.2 sampleFetch ["first"] "fourth" ("HTTP 404 " ++ "fourth")
      (fun v hv => by rw [List.mem_singleton] at hv; subst hv; exact ⟨"HTTP 404 " ++ "first", rfl⟩)
      rfl⟩

end CsrPreview
